import Mathlib

/-!
Shallow embedding of `src/src/utils/compressImageFile.ts`
(`compressImageFileWithLimit`), the image resize-and-iterative-recompression
routine of this repository.

Modelling choices:
* Browser capabilities (image decoding, `canvas.toDataURL`, `fetch`+`blob`,
  `atob`) are injected as an `Env` of total functions, matching the spec's
  "capability dependencies" (§6).  The decoded image dimensions live in `Env`
  since the claims quantify over the decoded image.
* JavaScript number arithmetic on quality and scale values is embedded as
  exact rational arithmetic (`ℚ`), as the claims prescribe; `Math.round` is
  `⌊x + 1/2⌋` (JS rounds half up, toward +∞).
* Strings are modelled as `List Char`; the data-URL manipulations
  (`split(',')`, the regex `:(.*?);`, the regex replace `\.\w+$` → ".webp")
  are embedded character by character.
* Run-time exceptions (the non-null assertion on the mime regex match,
  `atob` on a missing payload) are modelled by an `Option` result: `none` is
  a thrown error, `some` a normal return.
* The `do … while` loop is embedded with explicit fuel: `loopRun fuel k`
  performs at most `fuel` rasterize+encode attempts starting at attempt
  index `k` (attempt `k` uses quality `initialQuality - k·qualityStep`) and
  returns the index of the last attempt, or `none` if `fuel` attempts did
  not reach the exit condition.  "The loop executes at most `N` iterations"
  is expressed as `(loopRun N 0).isSome`.
* Every run is instrumented with a `List TraceOp` recording the decode and
  each rasterize+encode attempt, so that claims counting capability calls
  are statable.
-/

namespace CompressImage

/-- A JS `File`: binary content, name and declared mime type
(strings as `List Char`). -/
structure JSFile where
  bytes : List Nat
  name : List Char
  type : List Char
deriving DecidableEq, Repr

/-- The destructured options parameter of `compressImageFileWithLimit`. -/
structure CompressOptions where
  maxLongSide : Nat
  maxShortSide : Nat
  maxSizeBytes : Nat
  mimeType : List Char
  initialQuality : ℚ
  minQuality : ℚ
  qualityStep : ℚ
deriving DecidableEq, Repr

/-- The default option values of the source
(`maxLongSide = 1568`, `maxShortSide = 768`, `maxSizeBytes = 19 MiB`,
`mimeType = 'image/webp'`, `initialQuality = 0.92`, `minQuality = 0.5`,
`qualityStep = 0.07`). -/
def defaultOptions : CompressOptions where
  maxLongSide := 1568
  maxShortSide := 768
  maxSizeBytes := 19 * 1024 * 1024
  mimeType := "image/webp".toList
  initialQuality := 92 / 100
  minQuality := 1 / 2
  qualityStep := 7 / 100

/-- The injected browser capabilities together with the decoded image:
`imgWidth`/`imgHeight` are the dimensions produced by the decode step
(`FileReader` + `Image`), `encodeURL` is `canvas.toDataURL` after drawing at
the given dimensions, `blobBytes` is `fetch(dataURL).blob()`, and
`atobCodes` is `atob` followed by `charCodeAt` on every position. -/
structure Env where
  imgWidth : Nat
  imgHeight : Nat
  encodeURL : Int → Int → List Char → ℚ → List Char
  blobBytes : List Char → List Nat
  atobCodes : List Char → List Nat

/-- Does `pat` occur at the start of `s`?  (JS `String.prototype.startsWith`.) -/
def listStarts : List Char → List Char → Bool
  | [], _ => true
  | _ :: _, [] => false
  | p :: ps, c :: cs => p = c && listStarts ps cs

/-- The guard `file.type.startsWith('image/')`. -/
def startsWithImage (t : List Char) : Bool :=
  listStarts "image/".toList t

/-- JS `Math.round`: round to nearest, halves toward +∞. -/
def jsRound (x : ℚ) : Int := ⌊x + 1 / 2⌋

/-- `isPortrait = height >= width`. -/
def isPortraitOf (w h : Nat) : Bool := decide (w ≤ h)

/-- `shortSide = isPortrait ? width : height`. -/
def shortSideOf (w h : Nat) : Nat := if isPortraitOf w h then w else h

/-- `longSide = isPortrait ? height : width`. -/
def longSideOf (w h : Nat) : Nat := if isPortraitOf w h then h else w

/-- The resize trigger `shortSide > maxShortSide || longSide > maxLongSide`. -/
def needsResize (opts : CompressOptions) (w h : Nat) : Bool :=
  decide (opts.maxShortSide < shortSideOf w h) ||
    decide (opts.maxLongSide < longSideOf w h)

/-- The scale factor: `1` unless a bound is exceeded, in which case
`min(maxShortSide / shortSide, maxLongSide / longSide)`. -/
def scaleFor (opts : CompressOptions) (w h : Nat) : ℚ :=
  if needsResize opts w h then
    min ((opts.maxShortSide : ℚ) / (shortSideOf w h : ℚ))
      ((opts.maxLongSide : ℚ) / (longSideOf w h : ℚ))
  else 1

/-- The planned output dimensions: `Math.round(width * scale)` and
`Math.round(height * scale)` when resizing, otherwise the original
dimensions unchanged. -/
def planWidthHeight (opts : CompressOptions) (w h : Nat) : Int × Int :=
  if needsResize opts w h then
    (jsRound ((w : ℚ) * scaleFor opts w h), jsRound ((h : ℚ) * scaleFor opts w h))
  else ((w : Int), (h : Int))

/-- The quality used by attempt `k` (0-indexed):
`initialQuality - k * qualityStep` (the first attempt uses
`initialQuality`; `quality -= qualityStep` runs after each attempt). -/
def qualityAt (opts : CompressOptions) (k : Nat) : ℚ :=
  opts.initialQuality - (k : ℚ) * opts.qualityStep

/-- The data URL produced by attempt `k`:
`canvas.toDataURL(mimeType, quality)` after drawing at `w × h`. -/
def attemptURL (env : Env) (opts : CompressOptions) (w h : Int) (k : Nat) :
    List Char :=
  env.encodeURL w h opts.mimeType (qualityAt opts k)

/-- `blob.size` for attempt `k`. -/
def attemptSize (env : Env) (opts : CompressOptions) (w h : Int) (k : Nat) :
    Nat :=
  (env.blobBytes (attemptURL env opts w h k)).length

/-- The `do … while` continuation predicate after attempt `k`:
`blob.size > maxSizeBytes && quality > minQuality`, where `quality` has
already been decremented to `qualityAt (k+1)`. -/
def keepLooping (env : Env) (opts : CompressOptions) (w h : Int) (k : Nat) :
    Bool :=
  decide (opts.maxSizeBytes < attemptSize env opts w h k) &&
    decide (opts.minQuality < qualityAt opts (k + 1))

/-- Fuelled embedding of the compression loop: starting at attempt index
`k`, perform attempts while the continuation predicate holds, returning the
index of the last attempt performed (`none` when `fuel` attempts were not
enough to exit). -/
def loopRun (env : Env) (opts : CompressOptions) (w h : Int) :
    Nat → Nat → Option Nat
  | 0, _ => none
  | fuel + 1, k =>
    if keepLooping env opts w h k then loopRun env opts w h fuel (k + 1)
    else some k

/-- `arr[0]` of `dataURL.split(',')`: the characters before the first comma. -/
def beforeComma (l : List Char) : List Char :=
  l.takeWhile (fun c => c ≠ ',')

/-- `arr[1]` of `dataURL.split(',')`: the characters strictly between the
first and second comma (`none` when there is no comma, in which case the
source's `atob(arr[1])` throws). -/
def afterFirstComma (l : List Char) : Option (List Char) :=
  match l.dropWhile (fun c => c ≠ ',') with
  | [] => none
  | _ :: rest => some (rest.takeWhile (fun c => c ≠ ','))

/-- The lazy part of the regex `:(.*?);`: capture everything up to the
first `';'`, failing when no `';'` follows. -/
def takeUntilSemi : List Char → Option (List Char)
  | [] => none
  | c :: rest =>
    if c = ';' then some []
    else (takeUntilSemi rest).map (fun cap => c :: cap)

/-- The regex match `s.match(/:(.*?);/)[1]`: from the first `':'` that is
followed by a `';'`, the characters strictly between that `':'` and the
first subsequent `';'`; `none` when the regex does not match (the source's
non-null assertion then throws). -/
def captureColonSemi : List Char → Option (List Char)
  | [] => none
  | c :: rest =>
    if c = ':' then
      match takeUntilSemi rest with
      | some cap => some cap
      | none => captureColonSemi rest
    else captureColonSemi rest

/-- JS `\w`: ASCII letters, digits and underscore. -/
def isWordChar (c : Char) : Bool :=
  c.isAlpha || c.isDigit || c = '_'

/-- Split a character list at its last `'.'`: `some (pre, suf)` with
`l = pre ++ '.' :: suf` and no `'.'` in `suf`; `none` when `l` has no dot. -/
def lastDotSplit : List Char → Option (List Char × List Char)
  | [] => none
  | c :: rest =>
    match lastDotSplit rest with
    | some (pre, suf) => some (c :: pre, suf)
    | none => if c = '.' then some ([], rest) else none

/-- The rename `name.replace(/\.\w+$/, '.webp')`: when the name ends in a
dot followed by one or more word characters, that suffix is replaced by the
literal `".webp"`; otherwise the name is unchanged. -/
def replaceWebpExt (name : List Char) : List Char :=
  match lastDotSplit name with
  | some (pre, suf) =>
    if suf ≠ [] ∧ suf.all isWordChar then pre ++ ".webp".toList else name
  | none => name

/-- One recorded capability call: the decode step, or one
rasterize+encode attempt with its drawing dimensions, requested mime type
and quality. -/
inductive TraceOp where
  | decodeImage : TraceOp
  | rasterizeEncode (w h : Int) (mime : List Char) (quality : ℚ) : TraceOp
deriving DecidableEq, Repr

/-- Is this trace entry a rasterize+encode attempt? -/
def TraceOp.isEncodeOp : TraceOp → Bool
  | .decodeImage => false
  | .rasterizeEncode _ _ _ _ => true

/-- The capability calls of a run whose last attempt index is `t`:
one decode, then attempts `0, 1, …, t`. -/
def encodeTrace (opts : CompressOptions) (tw th : Int) (t : Nat) :
    List TraceOp :=
  TraceOp.decodeImage ::
    (List.range (t + 1)).map
      (fun k => TraceOp.rasterizeEncode tw th opts.mimeType (qualityAt opts k))

/-- The whole of `compressImageFileWithLimit`, instrumented with the trace
of capability calls.  `none` models a thrown exception (or exhausted fuel);
`some (out, trace)` a normal return. -/
def compressImageFileWithLimit (env : Env) (opts : CompressOptions)
    (fuel : Nat) (file : JSFile) : Option (JSFile × List TraceOp) :=
  if startsWithImage file.type then
    match loopRun env opts
        (planWidthHeight opts env.imgWidth env.imgHeight).1
        (planWidthHeight opts env.imgWidth env.imgHeight).2 fuel 0 with
    | none => none
    | some t =>
      match
        captureColonSemi (beforeComma (attemptURL env opts
          (planWidthHeight opts env.imgWidth env.imgHeight).1
          (planWidthHeight opts env.imgWidth env.imgHeight).2 t)),
        afterFirstComma (attemptURL env opts
          (planWidthHeight opts env.imgWidth env.imgHeight).1
          (planWidthHeight opts env.imgWidth env.imgHeight).2 t) with
      | some m, some payload =>
        some
          ({ bytes := env.atobCodes payload
             name := replaceWebpExt file.name
             type := m },
           encodeTrace opts
             (planWidthHeight opts env.imgWidth env.imgHeight).1
             (planWidthHeight opts env.imgWidth env.imgHeight).2 t)
      | _, _ => none
  else some (file, [])

/-- The fuel bound of claim C1:
`ceil((initialQuality - minQuality) / qualityStep) + 1`. -/
def ceilBound (opts : CompressOptions) : Nat :=
  (⌈(opts.initialQuality - opts.minQuality) / opts.qualityStep⌉).toNat + 1

/-- The shape of every string `canvas.toDataURL(mime, q)` actually returns:
`"data:" ++ mime ++ ";base64," ++ payload`. -/
def mkDataURL (m p : List Char) : List Char :=
  "data:".toList ++ (m ++ (';' :: ("base64".toList ++ (',' :: p))))

/-- A concrete capability environment for evaluating runs: fixed decoded
dimensions, an encoder that always produces the data URL `url`, a blob with
content `blob`, and a materializer that always yields the byte 65. -/
def constEnv (w h : Nat) (url : List Char) (blob : List Nat) : Env where
  imgWidth := w
  imgHeight := h
  encodeURL := fun _ _ _ _ => url
  blobBytes := fun _ => blob
  atobCodes := fun _ => [65]

/-- Spec-side definition (for comparison with the code in claim C7), from
the spec's words: the canonical extension of an output mime type is a dot
followed by the subtype after `"image/"` (e.g. `"image/webp" → ".webp"`). -/
def canonicalExtOfMime (mime : List Char) : List Char :=
  '.' :: mime.drop 6

/-- Spec-side definition (for comparison with the code in claim C7), from
the spec's words: replace the original name's trailing extension (last `.`
plus following non-dot characters at end of string) with the canonical
extension of the output mime type; if no extension exists, append it. -/
def specRenameFile (name mime : List Char) : List Char :=
  match lastDotSplit name with
  | some (pre, suf) =>
    if suf ≠ [] then pre ++ canonicalExtOfMime mime
    else name ++ canonicalExtOfMime mime
  | none => name ++ canonicalExtOfMime mime

/-! ### Basic lemmas about the dimension planner -/

theorem shortSideOf_eq_min (w h : Nat) : shortSideOf w h = min w h := by
  rw [shortSideOf, isPortraitOf, min_def]
  by_cases hwh : w ≤ h <;> simp [hwh]

theorem longSideOf_eq_max (w h : Nat) : longSideOf w h = max w h := by
  rw [longSideOf, isPortraitOf, max_def]
  by_cases hwh : w ≤ h <;> simp [hwh]

theorem needsResize_iff (opts : CompressOptions) (w h : Nat) :
    needsResize opts w h = true ↔
      (opts.maxShortSide < shortSideOf w h ∨ opts.maxLongSide < longSideOf w h) := by
  simp [needsResize]

theorem jsRound_mono {x y : ℚ} (h : x ≤ y) : jsRound x ≤ jsRound y :=
  Int.floor_le_floor (by linarith)

theorem jsRound_le {x : ℚ} {n : Int} (h : x ≤ (n : ℚ)) : jsRound x ≤ n := by
  have h1 : jsRound x ≤ jsRound ((n : ℚ)) := jsRound_mono h
  have h2 : jsRound ((n : ℚ)) = n := by
    rw [jsRound, Int.floor_int_add]
    norm_num
  rw [h2] at h1
  exact h1

theorem jsRound_nonneg {x : ℚ} (h : 0 ≤ x) : 0 ≤ jsRound x :=
  Int.floor_nonneg.mpr (by linarith)

theorem abs_jsRound_sub_le (x : ℚ) : |((jsRound x : Int) : ℚ) - x| ≤ 1 / 2 := by
  rw [jsRound, abs_le]
  constructor
  · have h1 := Int.sub_one_lt_floor (x + 1 / 2)
    linarith
  · have h2 := Int.floor_le (x + 1 / 2)
    linarith

theorem scaleFor_nonneg (opts : CompressOptions) (w h : Nat) :
    0 ≤ scaleFor opts w h := by
  rw [scaleFor]
  split
  · exact le_min (div_nonneg (Nat.cast_nonneg _) (Nat.cast_nonneg _))
      (div_nonneg (Nat.cast_nonneg _) (Nat.cast_nonneg _))
  · norm_num

theorem short_mul_scale_le (opts : CompressOptions) (w h : Nat)
    (hpos : 0 < shortSideOf w h) (htr : needsResize opts w h = true) :
    (shortSideOf w h : ℚ) * scaleFor opts w h ≤ (opts.maxShortSide : ℚ) := by
  rw [scaleFor, if_pos htr]
  have h2 : (0 : ℚ) < (shortSideOf w h : ℚ) := by exact_mod_cast hpos
  calc (shortSideOf w h : ℚ) *
        min ((opts.maxShortSide : ℚ) / (shortSideOf w h : ℚ))
          ((opts.maxLongSide : ℚ) / (longSideOf w h : ℚ))
      ≤ (shortSideOf w h : ℚ) *
          ((opts.maxShortSide : ℚ) / (shortSideOf w h : ℚ)) :=
        mul_le_mul_of_nonneg_left (min_le_left _ _) (le_of_lt h2)
    _ = (opts.maxShortSide : ℚ) := by
        field_simp

theorem long_mul_scale_le (opts : CompressOptions) (w h : Nat)
    (hpos : 0 < longSideOf w h) (htr : needsResize opts w h = true) :
    (longSideOf w h : ℚ) * scaleFor opts w h ≤ (opts.maxLongSide : ℚ) := by
  rw [scaleFor, if_pos htr]
  have h2 : (0 : ℚ) < (longSideOf w h : ℚ) := by exact_mod_cast hpos
  calc (longSideOf w h : ℚ) *
        min ((opts.maxShortSide : ℚ) / (shortSideOf w h : ℚ))
          ((opts.maxLongSide : ℚ) / (longSideOf w h : ℚ))
      ≤ (longSideOf w h : ℚ) *
          ((opts.maxLongSide : ℚ) / (longSideOf w h : ℚ)) :=
        mul_le_mul_of_nonneg_left (min_le_right _ _) (le_of_lt h2)
    _ = (opts.maxLongSide : ℚ) := by
        field_simp

theorem scaleFor_le_one (opts : CompressOptions) (w h : Nat)
    (hw : 0 < w) (hh : 0 < h) (htr : needsResize opts w h = true) :
    scaleFor opts w h ≤ 1 := by
  rcases (needsResize_iff opts w h).mp htr with hsh | hlg
  · have hpos : (0 : ℚ) < (shortSideOf w h : ℚ) := by
      have : 0 < shortSideOf w h := by
        rw [shortSideOf_eq_min]
        exact lt_min hw hh
      exact_mod_cast this
    have h1 : (opts.maxShortSide : ℚ) / (shortSideOf w h : ℚ) ≤ 1 := by
      rw [div_le_one hpos]
      exact_mod_cast le_of_lt hsh
    rw [scaleFor, if_pos htr]
    exact le_trans (min_le_left _ _) h1
  · have hpos : (0 : ℚ) < (longSideOf w h : ℚ) := by
      have : 0 < longSideOf w h := by
        rw [longSideOf_eq_max]
        exact lt_max_of_lt_left hw
      exact_mod_cast this
    have h1 : (opts.maxLongSide : ℚ) / (longSideOf w h : ℚ) ≤ 1 := by
      rw [div_le_one hpos]
      exact_mod_cast le_of_lt hlg
    rw [scaleFor, if_pos htr]
    exact le_trans (min_le_right _ _) h1

/-! ### Lemmas about the quality loop -/

theorem qualityAt_zero (opts : CompressOptions) :
    qualityAt opts 0 = opts.initialQuality := by
  simp [qualityAt]

theorem loopRun_isSome (env : Env) (opts : CompressOptions) (w h : Int) :
    ∀ (f k : Nat), qualityAt opts (k + f + 1) ≤ opts.minQuality →
      (loopRun env opts w h (f + 1) k).isSome = true := by
  intro f
  induction f with
  | zero =>
    intro k hq
    rw [loopRun]
    have hkl : keepLooping env opts w h k = false := by
      rw [keepLooping]
      have h1 : ¬ opts.minQuality < qualityAt opts (k + 1) := not_lt.mpr hq
      simp [h1]
    rw [hkl]
    simp
  | succ f ih =>
    intro k hq
    rw [loopRun]
    cases hkl : keepLooping env opts w h k
    · simp
    · rw [if_pos rfl]
      refine ih (k + 1) ?_
      rw [show k + 1 + f + 1 = k + (f + 1) + 1 by omega]
      exact hq

theorem loopRun_stop (env : Env) (opts : CompressOptions) (w h : Int) :
    ∀ (f k t : Nat), loopRun env opts w h f k = some t →
      keepLooping env opts w h t = false := by
  intro f
  induction f with
  | zero => intro k t hrun; simp [loopRun] at hrun
  | succ f ih =>
    intro k t hrun
    rw [loopRun] at hrun
    cases hkl : keepLooping env opts w h k
    · rw [hkl] at hrun
      simp at hrun
      rwa [hrun] at hkl
    · rw [hkl] at hrun
      rw [if_pos rfl] at hrun
      exact ih (k + 1) t hrun

theorem loopRun_reach (env : Env) (opts : CompressOptions) (w h : Int) :
    ∀ (f k t : Nat), loopRun env opts w h f k = some t →
      ∀ j, k ≤ j → j < t → keepLooping env opts w h j = true := by
  intro f
  induction f with
  | zero => intro k t hrun; simp [loopRun] at hrun
  | succ f ih =>
    intro k t hrun j hkj hjt
    rw [loopRun] at hrun
    cases hkl : keepLooping env opts w h k
    · rw [hkl] at hrun
      simp at hrun
      omega
    · rw [hkl] at hrun
      rw [if_pos rfl] at hrun
      rcases Nat.eq_or_lt_of_le hkj with heq | hlt
      · rwa [← heq]
      · exact ih (k + 1) t hrun j hlt hjt

theorem qualityAt_ceilBound_le (opts : CompressOptions)
    (hstep : 0 < opts.qualityStep)
    (hlt : opts.minQuality < opts.initialQuality) :
    qualityAt opts (ceilBound opts) ≤ opts.minQuality := by
  set d : ℚ := (opts.initialQuality - opts.minQuality) / opts.qualityStep with hd
  have hd0 : 0 < d := div_pos (by linarith) hstep
  have hceil1 : (1 : Int) ≤ ⌈d⌉ := Int.ceil_pos.mpr hd0
  have htn : ((⌈d⌉.toNat : Int)) = ⌈d⌉ := Int.toNat_of_nonneg (by linarith)
  have hmul : d * opts.qualityStep = opts.initialQuality - opts.minQuality :=
    div_mul_cancel₀ _ (ne_of_gt hstep)
  have hdle : d ≤ ((⌈d⌉.toNat : Nat) : ℚ) := by
    have h1 := Int.le_ceil d
    rw [← htn] at h1
    exact_mod_cast h1
  have hle : d * opts.qualityStep ≤ ((⌈d⌉.toNat : Nat) + 1 : ℚ) * opts.qualityStep :=
    mul_le_mul_of_nonneg_right (by linarith) (le_of_lt hstep)
  rw [qualityAt, ceilBound]
  push_cast
  linarith

/-! ### Lemmas about the data-URL parsing -/

theorem beforeComma_append (l1 l2 : List Char) (h : ∀ c ∈ l1, c ≠ ',') :
    beforeComma (l1 ++ ',' :: l2) = l1 := by
  induction l1 with
  | nil => simp [beforeComma]
  | cons c cs ih =>
    have hc : c ≠ ',' := h c (List.mem_cons_self c cs)
    have ih2 := ih (fun x hx => h x (List.mem_cons_of_mem c hx))
    rw [beforeComma] at ih2 ⊢
    rw [List.cons_append, List.takeWhile_cons]
    simp only [decide_not] at ih2
    simp [hc, ih2]

theorem takeUntilSemi_append (m r : List Char) (h : ∀ c ∈ m, c ≠ ';') :
    takeUntilSemi (m ++ ';' :: r) = some m := by
  induction m with
  | nil => simp [takeUntilSemi]
  | cons c cs ih =>
    have hc : c ≠ ';' := h c (List.mem_cons_self c cs)
    rw [List.cons_append, takeUntilSemi, if_neg hc,
      ih (fun x hx => h x (List.mem_cons_of_mem c hx))]
    rfl

theorem captureColonSemi_append (l0 m r : List Char)
    (h0 : ∀ c ∈ l0, c ≠ ':') (hm : ∀ c ∈ m, c ≠ ';') :
    captureColonSemi (l0 ++ ':' :: (m ++ ';' :: r)) = some m := by
  induction l0 with
  | nil =>
    rw [List.nil_append, captureColonSemi, if_pos rfl,
      takeUntilSemi_append m r hm]
  | cons c cs ih =>
    have hc : c ≠ ':' := h0 c (List.mem_cons_self c cs)
    rw [List.cons_append, captureColonSemi, if_neg hc,
      ih (fun x hx => h0 x (List.mem_cons_of_mem c hx))]

theorem mkDataURL_split (m p : List Char) :
    mkDataURL m p =
      ("data".toList ++ ':' :: (m ++ ';' :: "base64".toList)) ++ ',' :: p := by
  simp [mkDataURL]

theorem capture_mkDataURL (m p : List Char)
    (hm : ∀ c ∈ m, c ≠ ',' ∧ c ≠ ';') :
    captureColonSemi (beforeComma (mkDataURL m p)) = some m := by
  rw [mkDataURL_split]
  rw [beforeComma_append _ _ ?hcomma]
  case hcomma =>
    intro c hc
    simp only [List.mem_append, List.mem_cons] at hc
    rcases hc with h1 | h1 | h1
    · revert h1
      have : ∀ c ∈ "data".toList, c ≠ ',' := by decide
      exact this c
    · rw [h1]; decide
    · rcases h1 with h2 | h2
      · exact (hm c h2).1
      · rcases h2 with h3 | h3
        · rw [h3]; decide
        · revert h3
          have : ∀ c ∈ "base64".toList, c ≠ ',' := by decide
          exact this c
  exact captureColonSemi_append "data".toList m "base64".toList
    (by decide) (fun c hc => (hm c hc).2)

theorem afterFirstComma_mkDataURL (m p : List Char)
    (hm : ∀ c ∈ m, c ≠ ',') (hp : ∀ c ∈ p, c ≠ ',') :
    afterFirstComma (mkDataURL m p) = some p := by
  rw [mkDataURL_split, afterFirstComma]
  have hdrop : ("data".toList ++ ':' :: (m ++ ';' :: "base64".toList) ++
      ',' :: p).dropWhile (fun c => c ≠ ',') = ',' :: p := by
    rw [List.dropWhile_append]
    have h1 : ∀ c ∈ "data".toList ++ ':' :: (m ++ ';' :: "base64".toList),
        c ≠ ',' := by
      intro c hc
      simp only [List.mem_append, List.mem_cons] at hc
      rcases hc with h1 | h1 | h1
      · revert h1
        have : ∀ c ∈ "data".toList, c ≠ ',' := by decide
        exact this c
      · rw [h1]; decide
      · rcases h1 with h2 | h2
        · exact hm c h2
        · rcases h2 with h3 | h3
          · rw [h3]; decide
          · revert h3
            have : ∀ c ∈ "base64".toList, c ≠ ',' := by decide
            exact this c
    have h2 : ("data".toList ++ ':' :: (m ++ ';' :: "base64".toList)).dropWhile
        (fun c => c ≠ ',') = [] := by
      rw [List.dropWhile_eq_nil_iff]
      intro c hc
      simp [h1 c hc]
    simp only [h2]
    simp [List.dropWhile_cons]
  rw [hdrop]
  have htake : p.takeWhile (fun c => c ≠ ',') = p := by
    rw [List.takeWhile_eq_self_iff]
    intro c hc
    simp [hp c hc]
  exact congrArg some htake

/-! ### Lemmas about the rename -/

theorem lastDotSplit_eq_none (l : List Char) (h : '.' ∉ l) :
    lastDotSplit l = none := by
  induction l with
  | nil => rfl
  | cons c cs ih =>
    have hc : c ≠ '.' := fun heq => h (heq ▸ List.mem_cons_self c cs)
    rw [lastDotSplit, ih (fun hm => h (List.mem_cons_of_mem c hm))]
    simp [hc]

theorem lastDotSplit_append (pre suf : List Char) (hsuf : '.' ∉ suf) :
    lastDotSplit (pre ++ '.' :: suf) = some (pre, suf) := by
  induction pre with
  | nil =>
    rw [List.nil_append, lastDotSplit, lastDotSplit_eq_none suf hsuf]
    simp
  | cons c cs ih =>
    rw [List.cons_append, lastDotSplit, ih]

/-! ### Decomposition of a successful run -/

theorem compress_success_decompose (env : Env) (opts : CompressOptions)
    (fuel : Nat) (file out : JSFile) (tr : List TraceOp) (tw th : Int)
    (hplan : planWidthHeight opts env.imgWidth env.imgHeight = (tw, th))
    (himg : startsWithImage file.type = true)
    (hrun : compressImageFileWithLimit env opts fuel file = some (out, tr)) :
    ∃ t m payload,
      loopRun env opts tw th fuel 0 = some t ∧
      captureColonSemi (beforeComma (attemptURL env opts tw th t)) = some m ∧
      afterFirstComma (attemptURL env opts tw th t) = some payload ∧
      out = { bytes := env.atobCodes payload
              name := replaceWebpExt file.name
              type := m } ∧
      tr = encodeTrace opts tw th t := by
  rw [compressImageFileWithLimit, if_pos himg, hplan] at hrun
  dsimp only at hrun
  cases hl : loopRun env opts tw th fuel 0 with
  | none => rw [hl] at hrun; simp at hrun
  | some t =>
    rw [hl] at hrun
    dsimp only at hrun
    cases hm : captureColonSemi (beforeComma (attemptURL env opts tw th t)) with
    | none => rw [hm] at hrun; simp at hrun
    | some m =>
      rw [hm] at hrun
      cases hp : afterFirstComma (attemptURL env opts tw th t) with
      | none => rw [hp] at hrun; simp at hrun
      | some payload =>
        rw [hp] at hrun
        dsimp only at hrun
        rw [Option.some_inj, Prod.mk.injEq] at hrun
        exact ⟨t, m, payload, rfl, hm, hp, hrun.1.symm, hrun.2.symm⟩

/-! ### The claims -/

/-- C6: for every input whose declared mime type does not start with
`"image/"`, the function returns the input resource itself unchanged (same
bytes, name and mime type) with an empty capability trace — zero decode,
rasterize or encode calls. -/
theorem c6_non_image_passthrough (env : Env) (opts : CompressOptions)
    (fuel : Nat) (file : JSFile)
    (h : startsWithImage file.type = false) :
    compressImageFileWithLimit env opts fuel file = some (file, []) := by
  rw [compressImageFileWithLimit, if_neg (by simp [h])]

/-- Witness for C6 at a concrete PDF input. -/
def c6File : JSFile :=
  { bytes := [1, 2, 3], name := "doc.pdf".toList, type := "application/pdf".toList }

theorem c6_witness :
    compressImageFileWithLimit (constEnv 10 10 [] []) defaultOptions 3 c6File =
      some (c6File, []) :=
  c6_non_image_passthrough (constEnv 10 10 [] []) defaultOptions 3 c6File (by decide)

/-- C3: for every decoded image with `shortSide ≤ maxShortSide` and
`longSide ≤ maxLongSide`, scale is `1` and the planned dimensions equal the
input dimensions exactly; moreover, the planner never increases either
dimension beyond the original, for any positive input dimensions. -/
theorem c3_no_resize_identity (opts : CompressOptions) (w h : Nat)
    (hs : shortSideOf w h ≤ opts.maxShortSide)
    (hl : longSideOf w h ≤ opts.maxLongSide) :
    scaleFor opts w h = 1 ∧
    planWidthHeight opts w h = ((w : Int), (h : Int)) ∧
    ∀ w2 h2 : Nat, 0 < w2 → 0 < h2 →
      (planWidthHeight opts w2 h2).1 ≤ (w2 : Int) ∧
      (planWidthHeight opts w2 h2).2 ≤ (h2 : Int) := by
  have hnr : needsResize opts w h = false := by
    rw [needsResize]
    simp only [Bool.or_eq_false_iff, decide_eq_false_iff_not, not_lt]
    exact ⟨hs, hl⟩
  refine ⟨by simp [scaleFor, hnr], by simp [planWidthHeight, hnr], ?_⟩
  intro w2 h2 hw2 hh2
  cases htr : needsResize opts w2 h2 with
  | false => rw [planWidthHeight, htr]; simp
  | true =>
    have hs1 : scaleFor opts w2 h2 ≤ 1 := scaleFor_le_one opts w2 h2 hw2 hh2 htr
    have hw2c : (0 : ℚ) ≤ (w2 : ℚ) := Nat.cast_nonneg _
    have hh2c : (0 : ℚ) ≤ (h2 : ℚ) := Nat.cast_nonneg _
    have h1 : (w2 : ℚ) * scaleFor opts w2 h2 ≤ (w2 : ℚ) := by
      calc (w2 : ℚ) * scaleFor opts w2 h2 ≤ (w2 : ℚ) * 1 :=
            mul_le_mul_of_nonneg_left hs1 hw2c
        _ = (w2 : ℚ) := mul_one _
    have h2q : (h2 : ℚ) * scaleFor opts w2 h2 ≤ (h2 : ℚ) := by
      calc (h2 : ℚ) * scaleFor opts w2 h2 ≤ (h2 : ℚ) * 1 :=
            mul_le_mul_of_nonneg_left hs1 hh2c
        _ = (h2 : ℚ) := mul_one _
    rw [planWidthHeight, htr]
    simp only [if_pos]
    exact ⟨jsRound_le (by push_cast; exact h1), jsRound_le (by push_cast; exact h2q)⟩

/-- Witness for C3 at the spec's Scenario B input (500 × 400, defaults). -/
theorem c3_witness :
    scaleFor defaultOptions 500 400 = 1 ∧
    planWidthHeight defaultOptions 500 400 = (((500 : Nat) : Int), ((400 : Nat) : Int)) ∧
    ∀ w2 h2 : Nat, 0 < w2 → 0 < h2 →
      (planWidthHeight defaultOptions w2 h2).1 ≤ (w2 : Int) ∧
      (planWidthHeight defaultOptions w2 h2).2 ≤ (h2 : Int) :=
  c3_no_resize_identity defaultOptions 500 400 (by decide) (by decide)

/-- C8 counterexample: at decoded dimensions 1 × 10000 with the default
limits, resizing is triggered and the planned width is 0 — the code has no
lower clamp of 1, refuting the claim that no planned dimension is ever 0. -/
theorem c8_counterexample :
    needsResize defaultOptions 1 10000 = true ∧
    (planWidthHeight defaultOptions 1 10000).1 = 0 := by
  refine ⟨by decide, ?_⟩
  rw [planWidthHeight, if_pos (by decide)]
  dsimp only
  have hscale : scaleFor defaultOptions 1 10000 = 98 / 625 := by
    rw [scaleFor, if_pos (by decide)]
    have h1 : shortSideOf 1 10000 = 1 := by decide
    have h2 : longSideOf 1 10000 = 10000 := by decide
    rw [h1, h2]
    rw [min_def, if_neg (by norm_num [defaultOptions])]
    norm_num [defaultOptions]
  rw [hscale, jsRound, Int.floor_eq_iff]
  norm_num

/-- C8 amended: for every decoded image that triggers resizing, each target
dimension equals `Math.round(original × scale)` with no lower clamp; the
planned dimensions are only guaranteed nonnegative and can be 0. -/
theorem c8_amended_round_no_clamp (opts : CompressOptions) (w h : Nat)
    (htrig : opts.maxShortSide < shortSideOf w h ∨
      opts.maxLongSide < longSideOf w h) :
    planWidthHeight opts w h =
      (jsRound ((w : ℚ) * scaleFor opts w h),
       jsRound ((h : ℚ) * scaleFor opts w h)) ∧
    0 ≤ (planWidthHeight opts w h).1 ∧ 0 ≤ (planWidthHeight opts w h).2 := by
  have htr : needsResize opts w h = true := (needsResize_iff opts w h).mpr htrig
  have heq : planWidthHeight opts w h =
      (jsRound ((w : ℚ) * scaleFor opts w h),
       jsRound ((h : ℚ) * scaleFor opts w h)) := by
    rw [planWidthHeight, if_pos htr]
  refine ⟨heq, ?_, ?_⟩ <;> rw [heq] <;>
    exact jsRound_nonneg (mul_nonneg (Nat.cast_nonneg _) (scaleFor_nonneg _ _ _))

/-- Witness for C8's amended theorem at the counterexample input. -/
theorem c8_amended_witness :
    planWidthHeight defaultOptions 1 10000 =
      (jsRound (((1 : Nat) : ℚ) * scaleFor defaultOptions 1 10000),
       jsRound (((10000 : Nat) : ℚ) * scaleFor defaultOptions 1 10000)) ∧
    0 ≤ (planWidthHeight defaultOptions 1 10000).1 ∧
    0 ≤ (planWidthHeight defaultOptions 1 10000).2 :=
  c8_amended_round_no_clamp defaultOptions 1 10000 (by decide)

/-- C2: for every decoded image exceeding a bound, the planned short side
is at most `maxShortSide`, the planned long side at most `maxLongSide`, and
each planned dimension is within one pixel of the exactly-aspect-preserving
scaled dimension (`width · scale`, `height · scale`). -/
theorem c2_resize_bounded_aspect (opts : CompressOptions) (w h : Nat)
    (hw : 0 < w) (hh : 0 < h)
    (htrig : opts.maxShortSide < shortSideOf w h ∨
      opts.maxLongSide < longSideOf w h) :
    min (planWidthHeight opts w h).1 (planWidthHeight opts w h).2 ≤
        (opts.maxShortSide : Int) ∧
    max (planWidthHeight opts w h).1 (planWidthHeight opts w h).2 ≤
        (opts.maxLongSide : Int) ∧
    ((w : ℚ) * scaleFor opts w h) * (h : ℚ) =
        ((h : ℚ) * scaleFor opts w h) * (w : ℚ) ∧
    |((planWidthHeight opts w h).1 : ℚ) - (w : ℚ) * scaleFor opts w h| ≤ 1 ∧
    |((planWidthHeight opts w h).2 : ℚ) - (h : ℚ) * scaleFor opts w h| ≤ 1 := by
  have htr : needsResize opts w h = true := (needsResize_iff opts w h).mpr htrig
  have hs0 : 0 ≤ scaleFor opts w h := scaleFor_nonneg opts w h
  have heq : planWidthHeight opts w h =
      (jsRound ((w : ℚ) * scaleFor opts w h),
       jsRound ((h : ℚ) * scaleFor opts w h)) := by
    rw [planWidthHeight, if_pos htr]
  have hshortpos : 0 < shortSideOf w h := by
    rw [shortSideOf_eq_min]; exact lt_min hw hh
  have hlongpos : 0 < longSideOf w h := by
    rw [longSideOf_eq_max]; exact lt_max_of_lt_left hw
  have hmono : Monotone jsRound := fun a b hab => jsRound_mono hab
  have hminmul : min ((w : ℚ) * scaleFor opts w h) ((h : ℚ) * scaleFor opts w h) =
      ((shortSideOf w h : Nat) : ℚ) * scaleFor opts w h := by
    rw [shortSideOf_eq_min, Nat.cast_min, min_mul_of_nonneg _ _ hs0]
  have hmaxmul : max ((w : ℚ) * scaleFor opts w h) ((h : ℚ) * scaleFor opts w h) =
      ((longSideOf w h : Nat) : ℚ) * scaleFor opts w h := by
    rw [longSideOf_eq_max, Nat.cast_max, max_mul_of_nonneg _ _ hs0]
  refine ⟨?_, ?_, by ring, ?_, ?_⟩
  · rw [heq]
    dsimp only
    rw [← Monotone.map_min hmono, hminmul]
    refine jsRound_le ?_
    push_cast
    exact short_mul_scale_le opts w h hshortpos htr
  · rw [heq]
    dsimp only
    rw [← Monotone.map_max hmono, hmaxmul]
    refine jsRound_le ?_
    push_cast
    exact long_mul_scale_le opts w h hlongpos htr
  · rw [heq]
    dsimp only
    exact le_trans (abs_jsRound_sub_le _) (by norm_num)
  · rw [heq]
    dsimp only
    exact le_trans (abs_jsRound_sub_le _) (by norm_num)

/-- Witness for C2 at the spec's Scenario A input (3000 × 2000, defaults). -/
theorem c2_witness :
    min (planWidthHeight defaultOptions 3000 2000).1
        (planWidthHeight defaultOptions 3000 2000).2 ≤
      (defaultOptions.maxShortSide : Int) ∧
    max (planWidthHeight defaultOptions 3000 2000).1
        (planWidthHeight defaultOptions 3000 2000).2 ≤
      (defaultOptions.maxLongSide : Int) ∧
    (((3000 : Nat) : ℚ) * scaleFor defaultOptions 3000 2000) * ((2000 : Nat) : ℚ) =
        (((2000 : Nat) : ℚ) * scaleFor defaultOptions 3000 2000) * ((3000 : Nat) : ℚ) ∧
    |((planWidthHeight defaultOptions 3000 2000).1 : ℚ) -
        ((3000 : Nat) : ℚ) * scaleFor defaultOptions 3000 2000| ≤ 1 ∧
    |((planWidthHeight defaultOptions 3000 2000).2 : ℚ) -
        ((2000 : Nat) : ℚ) * scaleFor defaultOptions 3000 2000| ≤ 1 :=
  c2_resize_bounded_aspect defaultOptions 3000 2000 (by decide) (by decide)
    (by decide)

/-- C1: for every environment and planned dimensions, assuming
`qualityStep > 0` and `minQuality < initialQuality`, the encode loop
finishes within `ceil((initialQuality - minQuality) / qualityStep) + 1`
attempts — with that much fuel the loop always exits, and no run ever
performs more attempts than that, whatever the fuel. -/
theorem c1_loop_iteration_bound (env : Env) (opts : CompressOptions)
    (w h : Int)
    (hstep : 0 < opts.qualityStep)
    (hlt : opts.minQuality < opts.initialQuality) :
    (loopRun env opts w h (ceilBound opts) 0).isSome = true ∧
    ∀ (fuel t : Nat), loopRun env opts w h fuel 0 = some t →
      t + 1 ≤ ceilBound opts := by
  constructor
  · have hq : qualityAt opts
        (0 + (⌈(opts.initialQuality - opts.minQuality) / opts.qualityStep⌉).toNat + 1) ≤
        opts.minQuality := by
      rw [Nat.zero_add]
      exact qualityAt_ceilBound_le opts hstep hlt
    exact loopRun_isSome env opts w h
      ((⌈(opts.initialQuality - opts.minQuality) / opts.qualityStep⌉).toNat) 0 hq
  · intro fuel t hrun
    cases t with
    | zero =>
      rw [ceilBound]
      omega
    | succ j =>
      have hkeep := loopRun_reach env opts w h fuel 0 (j + 1) hrun j
        (Nat.zero_le _) (Nat.lt_succ_self j)
      rw [keepLooping, Bool.and_eq_true] at hkeep
      have hq : opts.minQuality < qualityAt opts (j + 1) :=
        of_decide_eq_true hkeep.2
      rw [qualityAt] at hq
      have hmul : (opts.initialQuality - opts.minQuality) / opts.qualityStep *
          opts.qualityStep = opts.initialQuality - opts.minQuality :=
        div_mul_cancel₀ _ (ne_of_gt hstep)
      have h2 : ((j + 1 : Nat) : ℚ) * opts.qualityStep <
          (opts.initialQuality - opts.minQuality) / opts.qualityStep *
            opts.qualityStep := by
        rw [hmul]
        linarith
      have h3 : ((j + 1 : Nat) : ℚ) <
          (opts.initialQuality - opts.minQuality) / opts.qualityStep :=
        (mul_lt_mul_right hstep).mp h2
      have h4 : ((j + 1 : Nat) : Int) <
          ⌈(opts.initialQuality - opts.minQuality) / opts.qualityStep⌉ := by
        rw [Int.lt_ceil]
        exact_mod_cast h3
      rw [ceilBound]
      omega

/-- Witness for C1 at the default options and a trivial environment. -/
theorem c1_witness :
    (loopRun (constEnv 10 10 [] []) defaultOptions 10 10
        (ceilBound defaultOptions) 0).isSome = true ∧
    ∀ (fuel t : Nat),
      loopRun (constEnv 10 10 [] []) defaultOptions 10 10 fuel 0 = some t →
      t + 1 ≤ ceilBound defaultOptions :=
  c1_loop_iteration_bound (constEnv 10 10 [] []) defaultOptions 10 10
    (by norm_num [defaultOptions]) (by norm_num [defaultOptions])

/-- C9: assuming `minQuality < initialQuality` and `qualityStep > 0`, every
attempt the loop performs uses a quality strictly above `minQuality`: the
floor value itself is never passed to the encoder. -/
theorem c9_attempt_quality_above_floor (env : Env) (opts : CompressOptions)
    (w h : Int) (fuel t : Nat)
    (hstep : 0 < opts.qualityStep)
    (hlt : opts.minQuality < opts.initialQuality)
    (hrun : loopRun env opts w h fuel 0 = some t) :
    ∀ k, k ≤ t → opts.minQuality < qualityAt opts k := by
  intro k hk
  cases k with
  | zero => simpa [qualityAt] using hlt
  | succ j =>
    have hkeep := loopRun_reach env opts w h fuel 0 t hrun j
      (Nat.zero_le _) (by omega)
    rw [keepLooping, Bool.and_eq_true] at hkeep
    exact of_decide_eq_true hkeep.2

/-- Witness for C9 at the default options and a trivial environment. -/
theorem c9_witness :
    defaultOptions.minQuality < qualityAt defaultOptions 0 :=
  c9_attempt_quality_above_floor (constEnv 10 10 [] []) defaultOptions 10 10 1 0
    (by norm_num [defaultOptions]) (by norm_num [defaultOptions]) (by decide)
    0 (Nat.le_refl 0)

/-- The run of the whole function when the very first attempt already meets
the byte budget: the loop exits after attempt 0 and the result is built
from attempt 0's data URL.  Shared scaffolding for several claims. -/
theorem compress_first_attempt (env : Env) (opts : CompressOptions)
    (file : JSFile) (fuel : Nat) (tw th : Int) (m p : List Char)
    (himg : startsWithImage file.type = true)
    (hplan : planWidthHeight opts env.imgWidth env.imgHeight = (tw, th))
    (hfuel : 0 < fuel)
    (hsize : attemptSize env opts tw th 0 ≤ opts.maxSizeBytes)
    (hm : captureColonSemi (beforeComma (attemptURL env opts tw th 0)) = some m)
    (hp : afterFirstComma (attemptURL env opts tw th 0) = some p) :
    compressImageFileWithLimit env opts fuel file =
      some ({ bytes := env.atobCodes p
              name := replaceWebpExt file.name
              type := m },
            [TraceOp.decodeImage,
             TraceOp.rasterizeEncode tw th opts.mimeType opts.initialQuality]) := by
  obtain ⟨f, rfl⟩ : ∃ f, fuel = f + 1 := ⟨fuel - 1, by omega⟩
  have hloop : loopRun env opts tw th (f + 1) 0 = some 0 := by
    rw [loopRun]
    have hkl : keepLooping env opts tw th 0 = false := by
      rw [keepLooping]
      have h1 : ¬ opts.maxSizeBytes < attemptSize env opts tw th 0 :=
        not_lt.mpr hsize
      simp [h1]
    rw [hkl]
    simp
  rw [compressImageFileWithLimit, if_pos himg, hplan]
  dsimp only
  rw [hloop]
  dsimp only
  rw [hm, hp]
  dsimp only
  rw [encodeTrace]
  simp only [Nat.zero_add, List.range_succ, List.range_zero, List.nil_append,
    List.map_cons, List.map_nil, qualityAt_zero]

/-- C5: if the first encode attempt already meets the byte budget, the run
performs exactly one rasterize+encode attempt and returns its result; and
every successful run on an image input performs at least one
rasterize+encode attempt. -/
theorem c5_single_attempt (env : Env) (opts : CompressOptions) (file : JSFile)
    (fuel : Nat) (tw th : Int) (m p : List Char)
    (himg : startsWithImage file.type = true)
    (hplan : planWidthHeight opts env.imgWidth env.imgHeight = (tw, th))
    (hfuel : 0 < fuel)
    (hsize : attemptSize env opts tw th 0 ≤ opts.maxSizeBytes)
    (hm : captureColonSemi (beforeComma (attemptURL env opts tw th 0)) = some m)
    (hp : afterFirstComma (attemptURL env opts tw th 0) = some p) :
    compressImageFileWithLimit env opts fuel file =
      some ({ bytes := env.atobCodes p
              name := replaceWebpExt file.name
              type := m },
            [TraceOp.decodeImage,
             TraceOp.rasterizeEncode tw th opts.mimeType opts.initialQuality]) ∧
    ∀ (fuel2 : Nat) (file2 out : JSFile) (tr : List TraceOp),
      startsWithImage file2.type = true →
      compressImageFileWithLimit env opts fuel2 file2 = some (out, tr) →
      1 ≤ tr.countP (fun op => op.isEncodeOp) := by
  constructor
  · exact compress_first_attempt env opts file fuel tw th m p
      himg hplan hfuel hsize hm hp
  · intro fuel2 file2 out tr himg2 hrun2
    obtain ⟨t, m2, p2, hl, hm2, hp2, hout, htr⟩ :=
      compress_success_decompose env opts fuel2 file2 out tr
        (planWidthHeight opts env.imgWidth env.imgHeight).1
        (planWidthHeight opts env.imgWidth env.imgHeight).2 rfl himg2 hrun2
    rw [htr, encodeTrace, List.range_succ_eq_map, List.map_cons,
      List.countP_cons, List.countP_cons]
    simp [TraceOp.isEncodeOp]

/-- Witness environment and file for C5: the spec's Scenario B
(500 × 400, defaults, first attempt within budget). -/
def c5Env : Env := constEnv 500 400 (mkDataURL "image/webp".toList "QQ==".toList) []

def c5File : JSFile :=
  { bytes := [0], name := "a.png".toList, type := "image/png".toList }

theorem c5_witness :
    compressImageFileWithLimit c5Env defaultOptions 1 c5File =
      some ({ bytes := c5Env.atobCodes "QQ==".toList
              name := replaceWebpExt c5File.name
              type := "image/webp".toList },
            [TraceOp.decodeImage,
             TraceOp.rasterizeEncode 500 400 defaultOptions.mimeType
               defaultOptions.initialQuality]) ∧
    ∀ (fuel2 : Nat) (file2 out : JSFile) (tr : List TraceOp),
      startsWithImage file2.type = true →
      compressImageFileWithLimit c5Env defaultOptions fuel2 file2 = some (out, tr) →
      1 ≤ tr.countP (fun op => op.isEncodeOp) :=
  c5_single_attempt c5Env defaultOptions c5File 1 500 400
    "image/webp".toList "QQ==".toList
    (by decide) (by decide) (by decide) (by decide) (by decide) (by decide)

/-- C4: when every attempt down to the quality floor stays over the byte
budget, the function still returns normally: the loop stops at the floor
and the last (oversized) candidate is wrapped and returned, with no
error. -/
theorem c4_best_effort_returns_last (env : Env) (opts : CompressOptions)
    (file : JSFile) (tw th : Int) (pay mim : Nat → List Char)
    (hstep : 0 < opts.qualityStep)
    (hlt : opts.minQuality < opts.initialQuality)
    (himg : startsWithImage file.type = true)
    (hplan : planWidthHeight opts env.imgWidth env.imgHeight = (tw, th))
    (hover : ∀ k, opts.maxSizeBytes < attemptSize env opts tw th k)
    (hparse : ∀ k,
      captureColonSemi (beforeComma (attemptURL env opts tw th k)) = some (mim k) ∧
      afterFirstComma (attemptURL env opts tw th k) = some (pay k)) :
    ∃ t, loopRun env opts tw th (ceilBound opts) 0 = some t ∧
      opts.maxSizeBytes < attemptSize env opts tw th t ∧
      qualityAt opts (t + 1) ≤ opts.minQuality ∧
      compressImageFileWithLimit env opts (ceilBound opts) file =
        some ({ bytes := env.atobCodes (pay t)
                name := replaceWebpExt file.name
                type := mim t },
              encodeTrace opts tw th t) := by
  have hsome : (loopRun env opts tw th (ceilBound opts) 0).isSome = true := by
    have hq : qualityAt opts
        (0 + (⌈(opts.initialQuality - opts.minQuality) / opts.qualityStep⌉).toNat + 1) ≤
        opts.minQuality := by
      rw [Nat.zero_add]
      exact qualityAt_ceilBound_le opts hstep hlt
    exact loopRun_isSome env opts tw th
      ((⌈(opts.initialQuality - opts.minQuality) / opts.qualityStep⌉).toNat) 0 hq
  obtain ⟨t, ht⟩ := Option.isSome_iff_exists.mp hsome
  have hfloor : qualityAt opts (t + 1) ≤ opts.minQuality := by
    have hstop := loopRun_stop env opts tw th (ceilBound opts) 0 t ht
    rw [keepLooping] at hstop
    have hA : decide (opts.maxSizeBytes < attemptSize env opts tw th t) = true :=
      decide_eq_true (hover t)
    cases hB : decide (opts.minQuality < qualityAt opts (t + 1)) with
    | false => exact not_lt.mp (of_decide_eq_false hB)
    | true => rw [hA, hB] at hstop; simp at hstop
  refine ⟨t, ht, hover t, hfloor, ?_⟩
  rw [compressImageFileWithLimit, if_pos himg, hplan]
  dsimp only
  rw [ht]
  dsimp only
  rw [(hparse t).1, (hparse t).2]

/-- Witness data for C4: a byte budget of 0 that no attempt can meet. -/
def c4Opts : CompressOptions := { defaultOptions with maxSizeBytes := 0 }

def c4Env : Env := constEnv 10 10 (mkDataURL "image/webp".toList "QQ==".toList) [7]

def c4File : JSFile :=
  { bytes := [3], name := "big.jpg".toList, type := "image/jpeg".toList }

theorem c4Env_oversized (k : Nat) :
    c4Opts.maxSizeBytes < attemptSize c4Env c4Opts 10 10 k := by
  show (0 : Nat) < [7].length
  decide

theorem c4Env_parse (k : Nat) :
    captureColonSemi (beforeComma (attemptURL c4Env c4Opts 10 10 k)) =
      some "image/webp".toList ∧
    afterFirstComma (attemptURL c4Env c4Opts 10 10 k) = some "QQ==".toList := by
  constructor
  · show captureColonSemi
        (beforeComma (mkDataURL "image/webp".toList "QQ==".toList)) =
      some "image/webp".toList
    decide
  · show afterFirstComma (mkDataURL "image/webp".toList "QQ==".toList) =
      some "QQ==".toList
    decide

theorem c4_witness :
    ∃ t, loopRun c4Env c4Opts 10 10 (ceilBound c4Opts) 0 = some t ∧
      c4Opts.maxSizeBytes < attemptSize c4Env c4Opts 10 10 t ∧
      qualityAt c4Opts (t + 1) ≤ c4Opts.minQuality ∧
      compressImageFileWithLimit c4Env c4Opts (ceilBound c4Opts) c4File =
        some ({ bytes := c4Env.atobCodes "QQ==".toList
                name := replaceWebpExt c4File.name
                type := "image/webp".toList },
              encodeTrace c4Opts 10 10 t) :=
  c4_best_effort_returns_last c4Env c4Opts c4File 10 10
    (fun _ => "QQ==".toList) (fun _ => "image/webp".toList)
    (by norm_num [c4Opts, defaultOptions])
    (by norm_num [c4Opts, defaultOptions])
    (by decide) (by decide)
    c4Env_oversized
    c4Env_parse

/-- C7 counterexample data: configured output mime type `image/png`. -/
def c7Opts : CompressOptions := { defaultOptions with mimeType := "image/png".toList }

def c7Env : Env := constEnv 10 10 (mkDataURL "image/png".toList "QQ==".toList) []

def c7File : JSFile :=
  { bytes := [9], name := "photo.jpg".toList, type := "image/jpeg".toList }

/-- C7 counterexample: with configured output mime type `image/png` the run
renames `photo.jpg` to `photo.webp` — the source's literal `'.webp'` — while
the claim requires the canonical extension of the configured type,
`photo.png`. -/
theorem c7_counterexample :
    compressImageFileWithLimit c7Env c7Opts 1 c7File =
      some ({ bytes := c7Env.atobCodes "QQ==".toList
              name := "photo.webp".toList
              type := "image/png".toList },
            [TraceOp.decodeImage,
             TraceOp.rasterizeEncode 10 10 c7Opts.mimeType c7Opts.initialQuality]) ∧
    specRenameFile c7File.name c7Opts.mimeType = "photo.png".toList ∧
    ("photo.webp".toList : List Char) ≠ "photo.png".toList := by
  refine ⟨?_, by decide, by decide⟩
  have hname : replaceWebpExt c7File.name = "photo.webp".toList := by decide
  rw [← hname]
  exact compress_first_attempt c7Env c7Opts c7File 1 10 10
    "image/png".toList "QQ==".toList (by decide) (by decide) (by decide)
    (by decide) (by decide) (by decide)

/-- C7 amended: the output name is always the original name with a trailing
dot-plus-word-characters extension replaced by the literal `".webp"`,
regardless of the configured output mime type; a name without such an
extension is left entirely unchanged (nothing is appended). -/
theorem c7_amended_rename (env : Env) (opts : CompressOptions) (fuel : Nat)
    (file out : JSFile) (tr : List TraceOp)
    (himg : startsWithImage file.type = true)
    (hrun : compressImageFileWithLimit env opts fuel file = some (out, tr)) :
    out.name = replaceWebpExt file.name ∧
    (∀ pre suf : List Char, suf ≠ [] → suf.all isWordChar = true →
      replaceWebpExt (pre ++ '.' :: suf) = pre ++ ".webp".toList) ∧
    (∀ nm : List Char, '.' ∉ nm → replaceWebpExt nm = nm) := by
  refine ⟨?_, ?_, ?_⟩
  · obtain ⟨t, m2, p2, hl, hm2, hp2, hout, htr⟩ :=
      compress_success_decompose env opts fuel file out tr
        (planWidthHeight opts env.imgWidth env.imgHeight).1
        (planWidthHeight opts env.imgWidth env.imgHeight).2 rfl himg hrun
    rw [hout]
  · intro pre suf hne hall
    have hdot : '.' ∉ suf := by
      intro hmem
      have hw := List.all_eq_true.mp hall '.' hmem
      exact absurd hw (by decide)
    rw [replaceWebpExt, lastDotSplit_append pre suf hdot]
    dsimp only
    rw [if_pos ⟨hne, hall⟩]
  · intro nm hdot
    rw [replaceWebpExt, lastDotSplit_eq_none nm hdot]

/-- Witness data for C7's amended theorem. -/
def c7wEnv : Env := constEnv 10 10 (mkDataURL "image/webp".toList "QQ==".toList) []

def c7wFile : JSFile :=
  { bytes := [1], name := "pic.jpg".toList, type := "image/jpeg".toList }

theorem c7_amended_witness :
    ({ bytes := c7wEnv.atobCodes "QQ==".toList
       name := replaceWebpExt c7wFile.name
       type := "image/webp".toList } : JSFile).name = replaceWebpExt c7wFile.name ∧
    (∀ pre suf : List Char, suf ≠ [] → suf.all isWordChar = true →
      replaceWebpExt (pre ++ '.' :: suf) = pre ++ ".webp".toList) ∧
    (∀ nm : List Char, '.' ∉ nm → replaceWebpExt nm = nm) :=
  c7_amended_rename c7wEnv defaultOptions 1 c7wFile
    { bytes := c7wEnv.atobCodes "QQ==".toList
      name := replaceWebpExt c7wFile.name
      type := "image/webp".toList }
    [TraceOp.decodeImage,
     TraceOp.rasterizeEncode 10 10 defaultOptions.mimeType
       defaultOptions.initialQuality]
    (by decide)
    (compress_first_attempt c7wEnv defaultOptions c7wFile 1 10 10
      "image/webp".toList "QQ==".toList (by decide) (by decide) (by decide)
      (by decide) (by decide) (by decide))

/-- C10: the output's declared mime type is the one parsed from the data
URL the encode capability actually produced: when the encoder emits format
`m0` (possibly different from the configured `mimeType`), the returned file
declares `m0`. -/
theorem c10_output_mime_from_encoder (env : Env) (opts : CompressOptions)
    (fuel : Nat) (file out : JSFile) (tr : List TraceOp) (m0 : List Char)
    (pay : Int → Int → ℚ → List Char)
    (himg : startsWithImage file.type = true)
    (hm0 : ∀ c ∈ m0, c ≠ ',' ∧ c ≠ ';')
    (henc : ∀ w h q, env.encodeURL w h opts.mimeType q = mkDataURL m0 (pay w h q))
    (hrun : compressImageFileWithLimit env opts fuel file = some (out, tr)) :
    out.type = m0 := by
  obtain ⟨t, m, payload, hl, hm, hp, hout, htr⟩ :=
    compress_success_decompose env opts fuel file out tr
      (planWidthHeight opts env.imgWidth env.imgHeight).1
      (planWidthHeight opts env.imgWidth env.imgHeight).2 rfl himg hrun
  rw [attemptURL, henc] at hm
  rw [capture_mkDataURL m0 _ hm0] at hm
  rw [hout]
  exact (Option.some_inj.mp hm).symm

/-- Witness data for C10: the encoder answers `image/png` although
`image/gif` was configured. -/
def c10Opts : CompressOptions := { defaultOptions with mimeType := "image/gif".toList }

def c10Env : Env := constEnv 10 10 (mkDataURL "image/png".toList "QQ==".toList) []

def c10File : JSFile :=
  { bytes := [1], name := "pic.jpg".toList, type := "image/jpeg".toList }

theorem c10_witness :
    ({ bytes := c10Env.atobCodes "QQ==".toList
       name := replaceWebpExt c10File.name
       type := "image/png".toList } : JSFile).type = "image/png".toList ∧
    "image/png".toList ≠ c10Opts.mimeType :=
  ⟨c10_output_mime_from_encoder c10Env c10Opts 1 c10File
      { bytes := c10Env.atobCodes "QQ==".toList
        name := replaceWebpExt c10File.name
        type := "image/png".toList }
      [TraceOp.decodeImage,
       TraceOp.rasterizeEncode 10 10 c10Opts.mimeType c10Opts.initialQuality]
      "image/png".toList (fun _ _ _ => "QQ==".toList)
      (by decide) (by decide) (fun _ _ _ => rfl)
      (compress_first_attempt c10Env c10Opts c10File 1 10 10
        "image/png".toList "QQ==".toList (by decide) (by decide) (by decide)
        (by decide) (by decide) (by decide)),
    by decide⟩

end CompressImage
